import Mathlib

/-!
Verification of the homonim radiometric fusion core against its source.

The kernel-model fitting functions (`_find_gains_cv`, `_find_gain_and_offset_cv`,
`_src_image_offset`, the `HomonimRefSpace._homogenise_array` pipeline) are embedded
from `src/homonim/homonim.py`; the block reader (`_resolve_proc_crs`,
`_validate_image_pair`, `block_pairs`) from `src/homonim/raster_pair.py`; and
`RasterArray.to_rio_dataset` / `RasterArray.from_profile` from
`src/homonim/raster_array.py`.

Pixel values are embedded as exact rationals.  The internal nodata value is the
number 0 (`hom_nodata = 0` in the source), so a pixel is valid exactly when its
value is nonzero.  2-D images are total functions `ℤ → ℤ → ℚ` together with
explicit height/width bounds; OpenCV `boxFilter` with `BORDER_CONSTANT` pads
with zeros outside those bounds.
-/

/-- A 2-D image: row and column index to pixel value. -/
abbrev Grid := ℤ → ℤ → ℚ

/-- Value of a grid inside its `h × w` bounds, zero outside (cv BORDER_CONSTANT = 0). -/
def pad (h w : ℕ) (A : Grid) (i j : ℤ) : ℚ :=
  if 0 ≤ i ∧ i < (h : ℤ) ∧ 0 ≤ j ∧ j < (w : ℤ) then A i j else 0

/-- `cv.boxFilter(A, -1, (2*rw+1, 2*rh+1), normalize=False, borderType=BORDER_CONSTANT)`:
the sum of `A` over the odd kernel centred at `(i, j)`, zero-padded at the border.
The kernel is parameterised by its half sizes `rh`, `rw`. -/
def boxSum (h w rh rw : ℕ) (A : Grid) (i j : ℤ) : ℚ :=
  ∑ di ∈ Finset.Icc (-(rh : ℤ)) rh, ∑ dj ∈ Finset.Icc (-(rw : ℤ)) rw,
    pad h w A (i + di) (j + dj)

/-- `mask = src_array != hom_nodata` cast to float (`mask.astype(hom_dtype)`). -/
def maskA (src : Grid) : Grid := fun i j => if src i j ≠ 0 then 1 else 0

/-- `mask_sum = cv.boxFilter(mask, ...)`: the number N of valid pixels in each window. -/
def mask_sum (h w rh rw : ℕ) (src : Grid) : ℤ → ℤ → ℚ :=
  boxSum h w rh rw (maskA src)

/-- `ratio_array = np.divide(ref_array, src_array, out=full(nodata), where=mask)`:
per-pixel ref/src ratio at valid pixels, nodata (= 0) elsewhere. -/
def ratioA (ref src : Grid) : Grid :=
  fun i j => if src i j ≠ 0 then ref i j / src i j else 0

/-- `HomonImBase._find_gains_cv` (src/homonim/homonim.py:484-526) with the default
configuration `mask_partial_window = False`: the sliding-window gain is the box
sum of the per-pixel ratios divided by the number of valid window pixels, written
only at pixels whose own source value is valid (elsewhere nodata = 0). -/
def find_gains_cv (h w rh rw : ℕ) (ref src : Grid) : Grid :=
  fun i j =>
    if src i j ≠ 0 then
      boxSum h w rh rw (ratioA ref src) i j / mask_sum h w rh rw src i j
    else 0

/-- `ref_array[~mask] = hom_nodata` in `_find_gain_and_offset_cv`: the reference
with pixels invalid in the source zeroed. -/
def refZ (ref src : Grid) : Grid :=
  fun i j => if src i j ≠ 0 then ref i j else 0

/-- `src_sum = cv.boxFilter(src_array, ...)` (source is already 0 at nodata). -/
def src_sum (h w rh rw : ℕ) (src : Grid) : ℤ → ℤ → ℚ := boxSum h w rh rw src

/-- `ref_sum = cv.boxFilter(ref_array, ...)` after the source mask was applied to ref. -/
def ref_sum (h w rh rw : ℕ) (ref src : Grid) : ℤ → ℤ → ℚ :=
  boxSum h w rh rw (refZ ref src)

/-- `src_ref_sum = cv.boxFilter(src_array * ref_array, ...)`. -/
def src_ref_sum (h w rh rw : ℕ) (ref src : Grid) : ℤ → ℤ → ℚ :=
  boxSum h w rh rw (fun i j => src i j * refZ ref src i j)

/-- `src2_sum = cv.sqrBoxFilter(src_array, ...)`. -/
def src2_sum (h w rh rw : ℕ) (src : Grid) : ℤ → ℤ → ℚ :=
  boxSum h w rh rw (fun i j => src i j ^ 2)

/-- `ref2_sum = cv.sqrBoxFilter(ref_array, ...)`. -/
def ref2_sum (h w rh rw : ℕ) (ref src : Grid) : ℤ → ℤ → ℚ :=
  boxSum h w rh rw (fun i j => refZ ref src i j ^ 2)

/-- `m_num_array = (mask_sum * src_ref_sum) - (src_sum * ref_sum)`. -/
def m_num (h w rh rw : ℕ) (ref src : Grid) (i j : ℤ) : ℚ :=
  mask_sum h w rh rw src i j * src_ref_sum h w rh rw ref src i j -
    src_sum h w rh rw src i j * ref_sum h w rh rw ref src i j

/-- `m_den_array = (mask_sum * src2_sum) - (src_sum ** 2)`. -/
def m_den (h w rh rw : ℕ) (src : Grid) (i j : ℤ) : ℚ :=
  mask_sum h w rh rw src i j * src2_sum h w rh rw src i j -
    src_sum h w rh rw src i j ^ 2

/-- Least-squares gain plane of `_find_gain_and_offset_cv`:
`np.divide(m_num_array, m_den_array, out=full(nodata), where=mask)`. -/
def gain_ls (h w rh rw : ℕ) (ref src : Grid) : Grid :=
  fun i j =>
    if src i j ≠ 0 then m_num h w rh rw ref src i j / m_den h w rh rw src i j
    else 0

/-- Least-squares offset plane of `_find_gain_and_offset_cv`:
`np.divide(ref_sum - gain * src_sum, mask_sum, out=full(nodata), where=mask)`. -/
def offset_ls (h w rh rw : ℕ) (ref src : Grid) : Grid :=
  fun i j =>
    if src i j ≠ 0 then
      (ref_sum h w rh rw ref src i j -
        gain_ls h w rh rw ref src i j * src_sum h w rh rw src i j) /
        mask_sum h w rh rw src i j
    else 0

/-- `ss_tot_array = (mask_sum * ref2_sum) - (ref_sum ** 2)`. -/
def ss_tot (h w rh rw : ℕ) (ref src : Grid) (i j : ℤ) : ℚ :=
  mask_sum h w rh rw src i j * ref2_sum h w rh rw ref src i j -
    ref_sum h w rh rw ref src i j ^ 2

/-- `res_array = (param_array[0] * src_array + param_array[1]) - ref_array`
(per-pixel, using the per-pixel gain and offset planes). -/
def resA (h w rh rw : ℕ) (ref src : Grid) : Grid :=
  fun i j =>
    gain_ls h w rh rw ref src i j * src i j + offset_ls h w rh rw ref src i j -
      refZ ref src i j

/-- `ss_res_array = mask_sum * cv.sqrBoxFilter(res_array, ...)`. -/
def ss_res (h w rh rw : ℕ) (ref src : Grid) (i j : ℤ) : ℚ :=
  mask_sum h w rh rw src i j *
    boxSum h w rh rw (fun a b => resA h w rh rw ref src a b ^ 2) i j

/-- R² plane: `np.divide(ss_res, ss_tot, out=full(nodata), where=mask)` followed by
`np.subtract(1, r2, out=r2, where=mask)`. -/
def r2A (h w rh rw : ℕ) (ref src : Grid) : Grid :=
  fun i j =>
    if src i j ≠ 0 then 1 - ss_res h w rh rw ref src i j / ss_tot h w rh rw ref src i j
    else 0

/-- `rf_mask = (r2_array < r2_threshold) | (param_array[0] < 0)`. -/
def rf_mask (h w rh rw : ℕ) (ref src : Grid) (thresh : ℚ) (i j : ℤ) : Prop :=
  r2A h w rh rw ref src i j < thresh ∨ gain_ls h w rh rw ref src i j < 0

instance (h w rh rw : ℕ) (ref src : Grid) (thresh : ℚ) (i j : ℤ) :
    Decidable (rf_mask h w rh rw ref src thresh i j) := by
  unfold rf_mask; infer_instance

/-- `param_array[1] = fillnodata(param_array[1], ~rf_mask)` followed by
`param_array[1, ~mask] = hom_nodata`.  The rasterio/GDAL inpainting algorithm is an
external collaborator; the values it writes at flagged pixels are abstracted into
the parameter `fill`, while unflagged pixels keep their value (fillnodata with
zero smoothing iterations preserves pixels whose mask argument is true). -/
def offset_final (h w rh rw : ℕ) (ref src fill : Grid) (thresh : ℚ) : Grid :=
  fun i j =>
    if src i j ≠ 0 then
      if rf_mask h w rh rw ref src thresh i j then fill i j
      else offset_ls h w rh rw ref src i j
    else 0

/-- `rf_mask &= mask` followed by
`np.divide(ref_sum - mask_sum * param_array[1], src_sum, out=param_array[0], where=rf_mask)`:
the gain is recomputed from the filled offset at flagged valid pixels and keeps its
least-squares value elsewhere. -/
def gain_final (h w rh rw : ℕ) (ref src fill : Grid) (thresh : ℚ) : Grid :=
  fun i j =>
    if rf_mask h w rh rw ref src thresh i j ∧ src i j ≠ 0 then
      (ref_sum h w rh rw ref src i j -
        mask_sum h w rh rw src i j * offset_final h w rh rw ref src fill thresh i j) /
        src_sum h w rh rw src i j
    else gain_ls h w rh rw ref src i j

/-! ### Mathematical (claim-side) window sums

The claims state the fits in terms of sums over the valid pixels of the kernel
window.  These definitions are the claim-side counterparts that the box-filter
computations are proved against. -/

/-- The kernel window centred at `(i, j)` as a set of pixel coordinates. -/
def kwin (rh rw : ℕ) (i j : ℤ) : Finset (ℤ × ℤ) :=
  Finset.Icc (i - rh) (i + rh) ×ˢ Finset.Icc (j - rw) (j + rw)

/-- The valid pixels of the kernel window: in bounds and source not nodata. -/
def vwin (h w rh rw : ℕ) (src : Grid) (i j : ℤ) : Finset (ℤ × ℤ) :=
  (kwin rh rw i j).filter
    (fun q => 0 ≤ q.1 ∧ q.1 < (h : ℤ) ∧ 0 ≤ q.2 ∧ q.2 < (w : ℤ) ∧ src q.1 q.2 ≠ 0)

/-- N(p): the number of valid kernel pixels, as a rational. -/
def nValid (h w rh rw : ℕ) (src : Grid) (i j : ℤ) : ℚ :=
  (vwin h w rh rw src i j).card

/-- Sum of an arbitrary pixel expression over the valid kernel pixels. -/
def sumValid (h w rh rw : ℕ) (src : Grid) (A : Grid) (i j : ℤ) : ℚ :=
  ∑ q ∈ vwin h w rh rw src i j, A q.1 q.2

/-! ### Bridge lemmas between box filters and window sums -/

theorem boxSum_eq_sum_kwin (h w rh rw : ℕ) (A : Grid) (i j : ℤ) :
    boxSum h w rh rw A i j = ∑ q ∈ kwin rh rw i j, pad h w A q.1 q.2 := by
  rw [kwin, Finset.sum_product]
  unfold boxSum
  rw [show Finset.Icc (i - (rh : ℤ)) (i + rh) =
      Finset.map (addLeftEmbedding i) (Finset.Icc (-(rh : ℤ)) rh) by
    rw [Finset.map_add_left_Icc]; ring_nf,
    Finset.sum_map]
  refine Finset.sum_congr rfl (fun di _ => ?_)
  rw [show Finset.Icc (j - (rw : ℤ)) (j + rw) =
      Finset.map (addLeftEmbedding j) (Finset.Icc (-(rw : ℤ)) rw) by
    rw [Finset.map_add_left_Icc]; ring_nf,
    Finset.sum_map]
  rfl

theorem boxSum_eq_sumValid (h w rh rw : ℕ) (src : Grid) (A : Grid) (i j : ℤ)
    (hA : ∀ a b, src a b = 0 → A a b = 0) :
    boxSum h w rh rw A i j = sumValid h w rh rw src A i j := by
  rw [boxSum_eq_sum_kwin, sumValid, vwin, Finset.sum_filter]
  refine Finset.sum_congr rfl (fun q _ => ?_)
  by_cases hb : 0 ≤ q.1 ∧ q.1 < (h : ℤ) ∧ 0 ≤ q.2 ∧ q.2 < (w : ℤ)
  · by_cases hv : src q.1 q.2 ≠ 0
    · rw [if_pos ⟨hb.1, hb.2.1, hb.2.2.1, hb.2.2.2, hv⟩, pad, if_pos hb]
    · rw [if_neg (by tauto), pad, if_pos hb]
      exact hA q.1 q.2 (by tauto)
  · rw [if_neg (by tauto), pad, if_neg hb]

theorem mask_sum_eq_nValid (h w rh rw : ℕ) (src : Grid) (i j : ℤ) :
    mask_sum h w rh rw src i j = nValid h w rh rw src i j := by
  rw [mask_sum, boxSum_eq_sum_kwin, nValid, vwin, Finset.card_filter, Nat.cast_sum]
  refine Finset.sum_congr rfl (fun q _ => ?_)
  by_cases hb : 0 ≤ q.1 ∧ q.1 < (h : ℤ) ∧ 0 ≤ q.2 ∧ q.2 < (w : ℤ)
  · by_cases hv : src q.1 q.2 ≠ 0
    · simp [pad, maskA, hb, hv]
    · simp [pad, maskA, hb, hv]
  · have hb' : ¬(0 ≤ q.1 ∧ q.1 < (h : ℤ) ∧ 0 ≤ q.2 ∧ q.2 < (w : ℤ) ∧ src q.1 q.2 ≠ 0) := by
      tauto
    simp only [pad, if_neg hb, if_neg hb', Nat.cast_zero]

/-! ### Concrete-evaluation helpers -/

theorem Icc_neg_one_one : Finset.Icc (-1 : ℤ) 1 = {-1, 0, 1} := by decide

theorem sum_Icc_neg_one_one (f : ℤ → ℚ) :
    ∑ x ∈ Finset.Icc (-1 : ℤ) 1, f x = f (-1) + f 0 + f 1 := by
  rw [Icc_neg_one_one]
  rw [Finset.sum_insert (by decide), Finset.sum_insert (by decide), Finset.sum_singleton]
  ring

theorem sum_Icc_zero_zero (f : ℤ → ℚ) :
    ∑ x ∈ Finset.Icc (0 : ℤ) 0, f x = f 0 := by
  rw [Finset.Icc_self, Finset.sum_singleton]

theorem boxSum_0_1 (h w : ℕ) (A : Grid) (i j : ℤ) :
    boxSum h w 0 1 A i j = pad h w A i (j - 1) + pad h w A i j + pad h w A i (j + 1) := by
  unfold boxSum
  rw [show (-(0 : ℕ) : ℤ) = 0 by norm_num, show ((0 : ℕ) : ℤ) = 0 by norm_num,
    show (-(1 : ℕ) : ℤ) = -1 by norm_num, show ((1 : ℕ) : ℤ) = 1 by norm_num]
  rw [sum_Icc_zero_zero, sum_Icc_neg_one_one]
  norm_num [sub_eq_add_neg, add_comm]

theorem boxSum_1_1 (h w : ℕ) (A : Grid) (i j : ℤ) :
    boxSum h w 1 1 A i j =
      (pad h w A (i - 1) (j - 1) + pad h w A (i - 1) j + pad h w A (i - 1) (j + 1)) +
      (pad h w A i (j - 1) + pad h w A i j + pad h w A i (j + 1)) +
      (pad h w A (i + 1) (j - 1) + pad h w A (i + 1) j + pad h w A (i + 1) (j + 1)) := by
  unfold boxSum
  rw [show (-(1 : ℕ) : ℤ) = -1 by norm_num, show ((1 : ℕ) : ℤ) = 1 by norm_num]
  rw [sum_Icc_neg_one_one]
  rw [sum_Icc_neg_one_one, sum_Icc_neg_one_one, sum_Icc_neg_one_one]
  norm_num [sub_eq_add_neg, add_comm]

/-! ### C1: the gain method -/

/-- Claim side of C1, written from the spec's words: the gain is the ratio of the
box-filter sums of reference and source (invalid pixels zeroed), and nodata where
the source box sum is not positive. -/
def gain_claimC1 (h w rh rw : ℕ) (ref src : Grid) : Grid :=
  fun i j =>
    if 0 < boxSum h w rh rw (refZ src src) i j then
      boxSum h w rh rw (refZ ref src) i j / boxSum h w rh rw (refZ src src) i j
    else 0

/-- A 1 × 3 source band with values 1, 2, 1 (all valid: nodata is 0). -/
def srcC1 : Grid := fun _ j => if j = 1 then 2 else 1

/-- A 1 × 3 reference band with every pixel equal to 2. -/
def refC1 : Grid := fun _ _ => 2

/-- C1 counterexample: at the centre pixel of a 1 × 3 band pair under the 1 × 3
kernel all three kernel pixels are valid and the source box sum is positive, yet
`_find_gains_cv` does not return `Σr / Σs = 6 / 4`: it returns the mean of the
per-pixel ratios, `(2/1 + 2/2 + 2/1) / 3 = 5/3`. -/
theorem find_gains_cv_ne_ratio_of_sums :
    0 < boxSum 1 3 0 1 (refZ srcC1 srcC1) 0 1 ∧
    find_gains_cv 1 3 0 1 refC1 srcC1 0 1 = 5 / 3 ∧
    gain_claimC1 1 3 0 1 refC1 srcC1 0 1 = 3 / 2 ∧
    find_gains_cv 1 3 0 1 refC1 srcC1 0 1 ≠ gain_claimC1 1 3 0 1 refC1 srcC1 0 1 := by
  have hs : boxSum 1 3 0 1 (refZ srcC1 srcC1) 0 1 = 4 := by
    rw [boxSum_0_1]; norm_num [pad, refZ, srcC1]
  have hr : boxSum 1 3 0 1 (refZ refC1 srcC1) 0 1 = 6 := by
    rw [boxSum_0_1]; norm_num [pad, refZ, srcC1, refC1]
  have hratio : boxSum 1 3 0 1 (ratioA refC1 srcC1) 0 1 = 5 := by
    rw [boxSum_0_1]; norm_num [pad, ratioA, srcC1, refC1]
  have hn : mask_sum 1 3 0 1 srcC1 0 1 = 3 := by
    rw [mask_sum, boxSum_0_1]; norm_num [pad, maskA, srcC1]
  have hcode : find_gains_cv 1 3 0 1 refC1 srcC1 0 1 = 5 / 3 := by
    rw [find_gains_cv]; norm_num [srcC1, hratio, hn]
  have hclaim : gain_claimC1 1 3 0 1 refC1 srcC1 0 1 = 3 / 2 := by
    rw [gain_claimC1]; norm_num [hs, hr]
  refine ⟨by rw [hs]; norm_num, hcode, hclaim, ?_⟩
  rw [hcode, hclaim]; norm_num

/-- C1 (amended): at every pixel whose own source value is valid, the gain fit
returns the mean over the kernel of the per-pixel ratios ref/src, i.e.
`g(p) = Σ_K(p) (r/s) / N(p)` with invalid pixels contributing zero; at pixels whose
own source value is nodata the gain is nodata, regardless of `Σs`. -/
theorem find_gains_cv_eq_mean_ratio (h w rh rw : ℕ) (ref src : Grid) (i j : ℤ) :
    (src i j ≠ 0 →
      find_gains_cv h w rh rw ref src i j =
        sumValid h w rh rw src (fun a b => ref a b / src a b) i j /
          nValid h w rh rw src i j) ∧
    (src i j = 0 → find_gains_cv h w rh rw ref src i j = 0) := by
  constructor
  · intro hv
    rw [find_gains_cv]
    rw [if_pos hv, mask_sum_eq_nValid,
      boxSum_eq_sumValid h w rh rw src (ratioA ref src) i j
        (fun a b hb => by simp [ratioA, hb])]
    congr 1
    refine Finset.sum_congr rfl (fun q hq => ?_)
    have hqv : src q.1 q.2 ≠ 0 := ((Finset.mem_filter.mp hq).2).2.2.2.2
    simp [ratioA, hqv]
  · intro hv
    simp [find_gains_cv, hv]

/-- C1 amended-claim witness at the concrete 1 × 3 band pair. -/
theorem find_gains_cv_eq_mean_ratio_witness :
    srcC1 0 1 ≠ 0 ∧
    find_gains_cv 1 3 0 1 refC1 srcC1 0 1 =
      sumValid 1 3 0 1 srcC1 (fun a b => refC1 a b / srcC1 a b) 0 1 /
        nValid 1 3 0 1 srcC1 0 1 :=
  ⟨by norm_num [srcC1],
    (find_gains_cv_eq_mean_ratio 1 3 0 1 refC1 srcC1 0 1).1 (by norm_num [srcC1])⟩

/-! ### C2: the gain_offset least-squares formulas -/

theorem src_sum_eq_sumValid (h w rh rw : ℕ) (src : Grid) (i j : ℤ) :
    src_sum h w rh rw src i j = sumValid h w rh rw src src i j :=
  boxSum_eq_sumValid h w rh rw src src i j (fun _ _ hb => hb)

theorem ref_sum_eq_sumValid (h w rh rw : ℕ) (ref src : Grid) (i j : ℤ) :
    ref_sum h w rh rw ref src i j = sumValid h w rh rw src ref i j := by
  rw [ref_sum, boxSum_eq_sumValid h w rh rw src (refZ ref src) i j
    (fun a b hb => by simp [refZ, hb])]
  unfold sumValid
  refine Finset.sum_congr rfl (fun q hq => ?_)
  have hqv : src q.1 q.2 ≠ 0 := ((Finset.mem_filter.mp hq).2).2.2.2.2
  simp [refZ, hqv]

theorem src_ref_sum_eq_sumValid (h w rh rw : ℕ) (ref src : Grid) (i j : ℤ) :
    src_ref_sum h w rh rw ref src i j =
      sumValid h w rh rw src (fun a b => src a b * ref a b) i j := by
  rw [src_ref_sum, boxSum_eq_sumValid h w rh rw src
    (fun a b => src a b * refZ ref src a b) i j (fun a b hb => by simp [hb])]
  unfold sumValid
  refine Finset.sum_congr rfl (fun q hq => ?_)
  have hqv : src q.1 q.2 ≠ 0 := ((Finset.mem_filter.mp hq).2).2.2.2.2
  simp [refZ, hqv]

theorem src2_sum_eq_sumValid (h w rh rw : ℕ) (src : Grid) (i j : ℤ) :
    src2_sum h w rh rw src i j =
      sumValid h w rh rw src (fun a b => src a b ^ 2) i j :=
  boxSum_eq_sumValid h w rh rw src (fun a b => src a b ^ 2) i j
    (fun a b hb => by simp [hb])

theorem ref2_sum_eq_sumValid (h w rh rw : ℕ) (ref src : Grid) (i j : ℤ) :
    ref2_sum h w rh rw ref src i j =
      sumValid h w rh rw src (fun a b => ref a b ^ 2) i j := by
  rw [ref2_sum, boxSum_eq_sumValid h w rh rw src
    (fun a b => refZ ref src a b ^ 2) i j (fun a b hb => by simp [refZ, hb])]
  unfold sumValid
  refine Finset.sum_congr rfl (fun q hq => ?_)
  have hqv : src q.1 q.2 ≠ 0 := ((Finset.mem_filter.mp hq).2).2.2.2.2
  simp [refZ, hqv]

/-- Claim side of C2: the least-squares gain `(N·Σsr − Σs·Σr) / (N·Σs² − (Σs)²)`
with all sums taken over the valid pixels of the kernel window. -/
def gain_claimC2 (h w rh rw : ℕ) (ref src : Grid) (i j : ℤ) : ℚ :=
  (nValid h w rh rw src i j *
      sumValid h w rh rw src (fun a b => src a b * ref a b) i j -
    sumValid h w rh rw src src i j * sumValid h w rh rw src ref i j) /
  (nValid h w rh rw src i j * sumValid h w rh rw src (fun a b => src a b ^ 2) i j -
    sumValid h w rh rw src src i j ^ 2)

/-- Claim side of C2: the least-squares offset `(Σr − g·Σs) / N`. -/
def offset_claimC2 (h w rh rw : ℕ) (ref src : Grid) (i j : ℤ) : ℚ :=
  (sumValid h w rh rw src ref i j -
    gain_claimC2 h w rh rw ref src i j * sumValid h w rh rw src src i j) /
  nValid h w rh rw src i j

/-- Claim side of C2: the per-pixel residual `g·s + o − r` of the fitted model,
zero at pixels that are out of bounds or invalid. -/
def res_claimC2 (h w rh rw : ℕ) (ref src : Grid) : Grid :=
  fun i j =>
    if 0 ≤ i ∧ i < (h : ℤ) ∧ 0 ≤ j ∧ j < (w : ℤ) ∧ src i j ≠ 0 then
      gain_claimC2 h w rh rw ref src i j * src i j +
        offset_claimC2 h w rh rw ref src i j - ref i j
    else 0

/-- Claim side of C2: `R² = 1 − (N·boxsum((g·s + o − r)²)) / (N·Σr² − (Σr)²)`. -/
def r2_claimC2 (h w rh rw : ℕ) (ref src : Grid) (i j : ℤ) : ℚ :=
  1 - (nValid h w rh rw src i j *
      boxSum h w rh rw (fun a b => res_claimC2 h w rh rw ref src a b ^ 2) i j) /
    (nValid h w rh rw src i j * sumValid h w rh rw src (fun a b => ref a b ^ 2) i j -
      sumValid h w rh rw src ref i j ^ 2)

theorem gain_ls_eq_claim (h w rh rw : ℕ) (ref src : Grid) (i j : ℤ)
    (hv : src i j ≠ 0) :
    gain_ls h w rh rw ref src i j = gain_claimC2 h w rh rw ref src i j := by
  rw [gain_ls]
  rw [if_pos hv, m_num, m_den, gain_claimC2, mask_sum_eq_nValid, src_sum_eq_sumValid,
    ref_sum_eq_sumValid, src_ref_sum_eq_sumValid, src2_sum_eq_sumValid]

theorem offset_ls_eq_claim (h w rh rw : ℕ) (ref src : Grid) (i j : ℤ)
    (hv : src i j ≠ 0) :
    offset_ls h w rh rw ref src i j = offset_claimC2 h w rh rw ref src i j := by
  rw [offset_ls]
  rw [if_pos hv, offset_claimC2, gain_ls_eq_claim h w rh rw ref src i j hv,
    mask_sum_eq_nValid, src_sum_eq_sumValid, ref_sum_eq_sumValid]

theorem resA_eq_res_claim (h w rh rw : ℕ) (ref src : Grid) (a b : ℤ)
    (ha : 0 ≤ a) (ha' : a < (h : ℤ)) (hb : 0 ≤ b) (hb' : b < (w : ℤ)) :
    resA h w rh rw ref src a b = res_claimC2 h w rh rw ref src a b := by
  by_cases hv : src a b ≠ 0
  · rw [resA, res_claimC2, if_pos ⟨ha, ha', hb, hb', hv⟩, refZ, if_pos hv,
      gain_ls_eq_claim h w rh rw ref src a b hv, offset_ls_eq_claim h w rh rw ref src a b hv]
  · push_neg at hv
    rw [resA, res_claimC2, if_neg (by tauto), refZ, gain_ls, offset_ls,
      if_neg (by tauto), if_neg (by tauto), if_neg (by tauto), hv]
    ring

theorem boxSum_congr_inb (h w rh rw : ℕ) (A B : Grid) (i j : ℤ)
    (hAB : ∀ a b, 0 ≤ a → a < (h : ℤ) → 0 ≤ b → b < (w : ℤ) → A a b = B a b) :
    boxSum h w rh rw A i j = boxSum h w rh rw B i j := by
  unfold boxSum
  refine Finset.sum_congr rfl (fun di _ => Finset.sum_congr rfl (fun dj _ => ?_))
  unfold pad
  by_cases hq : 0 ≤ i + di ∧ i + di < (h : ℤ) ∧ 0 ≤ j + dj ∧ j + dj < (w : ℤ)
  · rw [if_pos hq, if_pos hq, hAB _ _ hq.1 hq.2.1 hq.2.2.1 hq.2.2.2]
  · rw [if_neg hq, if_neg hq]

/-- C2: at every valid pixel `p` the gain_offset fit returns
`g(p) = (N·Σsr − Σs·Σr) / (N·Σs² − (Σs)²)`, `o(p) = (Σr − g·Σs)/N` and
`R²(p) = 1 − (N·boxsum((g·s + o − r)²)) / (N·Σr² − (Σr)²)`, where the sums run
over the valid kernel pixels at `p` (invalid pixels zeroed) and `N` is the number
of valid kernel pixels. -/
theorem r2A_eq_claim (h w rh rw : ℕ) (ref src : Grid) (i j : ℤ)
    (hv : src i j ≠ 0) :
    r2A h w rh rw ref src i j = r2_claimC2 h w rh rw ref src i j := by
  rw [r2A]
  rw [if_pos hv, r2_claimC2, ss_res, ss_tot, mask_sum_eq_nValid, ref2_sum_eq_sumValid,
    ref_sum_eq_sumValid,
    boxSum_congr_inb h w rh rw _ (fun a b => res_claimC2 h w rh rw ref src a b ^ 2) i j
      (fun a b ha ha' hb hb' => by
        rw [resA_eq_res_claim h w rh rw ref src a b ha ha' hb hb'])]

theorem find_gain_and_offset_cv_formulas (h w rh rw : ℕ) (ref src : Grid) (i j : ℤ)
    (hv : src i j ≠ 0) :
    gain_ls h w rh rw ref src i j = gain_claimC2 h w rh rw ref src i j ∧
    offset_ls h w rh rw ref src i j = offset_claimC2 h w rh rw ref src i j ∧
    r2A h w rh rw ref src i j = r2_claimC2 h w rh rw ref src i j :=
  ⟨gain_ls_eq_claim h w rh rw ref src i j hv,
    offset_ls_eq_claim h w rh rw ref src i j hv,
    r2A_eq_claim h w rh rw ref src i j hv⟩

/-- A 1 × 3 source band with values 1, 2, 3. -/
def srcC2 : Grid := fun _ j => (j : ℚ) + 1

/-- A 1 × 3 reference band with values 1, 3, 5. -/
def refC2 : Grid := fun _ j => 2 * (j : ℚ) + 1

/-- C2 witness at the centre pixel of a concrete 1 × 3 band pair. -/
theorem find_gain_and_offset_cv_formulas_witness :
    srcC2 0 1 ≠ 0 ∧
    (gain_ls 1 3 0 1 refC2 srcC2 0 1 = gain_claimC2 1 3 0 1 refC2 srcC2 0 1 ∧
      offset_ls 1 3 0 1 refC2 srcC2 0 1 = offset_claimC2 1 3 0 1 refC2 srcC2 0 1 ∧
      r2A 1 3 0 1 refC2 srcC2 0 1 = r2_claimC2 1 3 0 1 refC2 srcC2 0 1) :=
  ⟨by norm_num [srcC2],
    find_gain_and_offset_cv_formulas 1 3 0 1 refC2 srcC2 0 1 (by norm_num [srcC2])⟩

/-! ### C3: R²-threshold offset inpainting -/

/-- C3: with an inpainting threshold configured, a valid pixel is flagged exactly
when `R²(p) < r2_inpaint_thresh` or `g(p) < 0`; at flagged valid pixels the offset
is replaced by the inpainted fill value and the gain is recomputed as
`g(p) = (Σr − N·o(p)) / Σs` from the filled offset; unflagged valid pixels keep
their least-squares gain and offset. -/
theorem find_gain_and_offset_cv_inpaint (h w rh rw : ℕ) (ref src fill : Grid)
    (thresh : ℚ) (i j : ℤ) (hv : src i j ≠ 0) :
    (rf_mask h w rh rw ref src thresh i j ↔
      r2_claimC2 h w rh rw ref src i j < thresh ∨
        gain_claimC2 h w rh rw ref src i j < 0) ∧
    (rf_mask h w rh rw ref src thresh i j →
      offset_final h w rh rw ref src fill thresh i j = fill i j ∧
      gain_final h w rh rw ref src fill thresh i j =
        (sumValid h w rh rw src ref i j - nValid h w rh rw src i j * fill i j) /
          sumValid h w rh rw src src i j) ∧
    (¬ rf_mask h w rh rw ref src thresh i j →
      gain_final h w rh rw ref src fill thresh i j = gain_ls h w rh rw ref src i j ∧
      offset_final h w rh rw ref src fill thresh i j =
        offset_ls h w rh rw ref src i j) := by
  refine ⟨?_, fun hf => ⟨?_, ?_⟩, fun hf => ⟨?_, ?_⟩⟩
  · rw [rf_mask, r2A_eq_claim h w rh rw ref src i j hv,
      gain_ls_eq_claim h w rh rw ref src i j hv]
  · rw [offset_final]
    rw [if_pos hv, if_pos hf]
  · rw [gain_final]
    rw [if_pos ⟨hf, hv⟩, offset_final, if_pos hv, if_pos hf, mask_sum_eq_nValid,
      ref_sum_eq_sumValid, src_sum_eq_sumValid]
  · rw [gain_final]
    rw [if_neg (by tauto)]
  · rw [offset_final]
    rw [if_pos hv, if_neg hf]

/-- Constant fill value used to instantiate the abstract inpainting function. -/
def fillC3 : Grid := fun _ _ => 9

/-- C3 witness at the centre pixel of the concrete 1 × 3 band pair, with
threshold 1/2 and a constant fill plane. -/
theorem find_gain_and_offset_cv_inpaint_witness :
    srcC2 0 1 ≠ 0 ∧
    ((rf_mask 1 3 0 1 refC2 srcC2 (1 / 2) 0 1 ↔
      r2_claimC2 1 3 0 1 refC2 srcC2 0 1 < 1 / 2 ∨
        gain_claimC2 1 3 0 1 refC2 srcC2 0 1 < 0) ∧
    (rf_mask 1 3 0 1 refC2 srcC2 (1 / 2) 0 1 →
      offset_final 1 3 0 1 refC2 srcC2 fillC3 (1 / 2) 0 1 = fillC3 0 1 ∧
      gain_final 1 3 0 1 refC2 srcC2 fillC3 (1 / 2) 0 1 =
        (sumValid 1 3 0 1 srcC2 refC2 0 1 - nValid 1 3 0 1 srcC2 0 1 * fillC3 0 1) /
          sumValid 1 3 0 1 srcC2 srcC2 0 1) ∧
    (¬ rf_mask 1 3 0 1 refC2 srcC2 (1 / 2) 0 1 →
      gain_final 1 3 0 1 refC2 srcC2 fillC3 (1 / 2) 0 1 =
        gain_ls 1 3 0 1 refC2 srcC2 0 1 ∧
      offset_final 1 3 0 1 refC2 srcC2 fillC3 (1 / 2) 0 1 =
        offset_ls 1 3 0 1 refC2 srcC2 0 1)) :=
  ⟨by norm_num [srcC2],
    find_gain_and_offset_cv_inpaint 1 3 0 1 refC2 srcC2 fillC3 (1 / 2) 0 1
      (by norm_num [srcC2])⟩

/-! ### C5: identity fusion under gain_offset -/

theorem refZ_self (g : Grid) : refZ g g = g := by
  funext a b
  by_cases hv : g a b ≠ 0
  · simp [refZ, hv]
  · push_neg at hv
    simp [refZ, hv]

theorem m_num_self (h w rh rw : ℕ) (g : Grid) (a b : ℤ) :
    m_num h w rh rw g g a b = m_den h w rh rw g a b := by
  rw [m_num, m_den, src_ref_sum, ref_sum, src2_sum]
  simp only [refZ_self]
  rw [src_sum]
  have hsq : (fun i j => g i j * g i j) = fun i j => g i j ^ 2 := by
    funext i j; ring
  rw [hsq]
  ring

theorem gain_ls_self (h w rh rw : ℕ) (g : Grid) (a b : ℤ) (hv : g a b ≠ 0)
    (hden : m_den h w rh rw g a b ≠ 0) :
    gain_ls h w rh rw g g a b = 1 := by
  rw [gain_ls]
  rw [if_pos hv, m_num_self]
  exact div_self hden

theorem offset_ls_self (h w rh rw : ℕ) (g : Grid) (a b : ℤ) (hv : g a b ≠ 0)
    (hden : m_den h w rh rw g a b ≠ 0) :
    offset_ls h w rh rw g g a b = 0 := by
  rw [offset_ls]
  rw [if_pos hv, gain_ls_self h w rh rw g a b hv hden, ref_sum]
  simp only [refZ_self]
  rw [src_sum]
  ring_nf

theorem resA_self (h w rh rw : ℕ) (g : Grid) (a b : ℤ) (hv : g a b ≠ 0)
    (hden : m_den h w rh rw g a b ≠ 0) :
    resA h w rh rw g g a b = 0 := by
  rw [resA, gain_ls_self h w rh rw g a b hv hden, offset_ls_self h w rh rw g a b hv hden]
  simp only [refZ_self]
  ring

theorem r2A_self (h w rh rw : ℕ) (g : Grid) (i j : ℤ) (hv : g i j ≠ 0)
    (hK : ∀ a b : ℤ, a ∈ Finset.Icc (i - (rh : ℤ)) (i + rh) →
      b ∈ Finset.Icc (j - (rw : ℤ)) (j + rw) →
      g a b ≠ 0 ∧ m_den h w rh rw g a b ≠ 0) :
    r2A h w rh rw g g i j = 1 := by
  rw [r2A]
  rw [if_pos hv, ss_res]
  have hres : boxSum h w rh rw (fun a b => resA h w rh rw g g a b ^ 2) i j = 0 := by
    unfold boxSum
    refine Finset.sum_eq_zero (fun di hdi => Finset.sum_eq_zero (fun dj hdj => ?_))
    rw [pad]
    by_cases hq : 0 ≤ i + di ∧ i + di < (h : ℤ) ∧ 0 ≤ j + dj ∧ j + dj < (w : ℤ)
    · rw [if_pos hq]
      have hmem1 : i + di ∈ Finset.Icc (i - (rh : ℤ)) (i + rh) := by
        rw [Finset.mem_Icc] at hdi ⊢; omega
      have hmem2 : j + dj ∈ Finset.Icc (j - (rw : ℤ)) (j + rw) := by
        rw [Finset.mem_Icc] at hdj ⊢; omega
      obtain ⟨hv', hden'⟩ := hK (i + di) (j + dj) hmem1 hmem2
      rw [resA_self h w rh rw g (i + di) (j + dj) hv' hden']
      ring
    · rw [if_neg hq]
  rw [hres]
  ring

/-- C5 (amended): if source and reference are the same band and every kernel pixel
at `p` is valid, and additionally the least-squares denominator
`N·Σs² − (Σs)²` is nonzero at every kernel pixel of `p` (the source is nowhere
locally constant there), then the gain_offset fit — including the inpainting
stage, for any fill and any threshold ≤ 1 — returns exactly gain 1, offset 0 and
R² 1 at `p`. -/
theorem gain_offset_identity (h w rh rw : ℕ) (g fill : Grid) (thresh : ℚ) (i j : ℤ)
    (hth : thresh ≤ 1)
    (hK : ∀ a b : ℤ, a ∈ Finset.Icc (i - (rh : ℤ)) (i + rh) →
      b ∈ Finset.Icc (j - (rw : ℤ)) (j + rw) →
      (0 ≤ a ∧ a < (h : ℤ) ∧ 0 ≤ b ∧ b < (w : ℤ)) ∧
        g a b ≠ 0 ∧ m_den h w rh rw g a b ≠ 0) :
    gain_final h w rh rw g g fill thresh i j = 1 ∧
    offset_final h w rh rw g g fill thresh i j = 0 ∧
    r2A h w rh rw g g i j = 1 := by
  have hci : i ∈ Finset.Icc (i - (rh : ℤ)) (i + rh) := by
    rw [Finset.mem_Icc]; omega
  have hcj : j ∈ Finset.Icc (j - (rw : ℤ)) (j + rw) := by
    rw [Finset.mem_Icc]; omega
  obtain ⟨-, hv, hden⟩ := hK i j hci hcj
  have hr2 : r2A h w rh rw g g i j = 1 :=
    r2A_self h w rh rw g i j hv (fun a b ha hb => (hK a b ha hb).2)
  have hflag : ¬ rf_mask h w rh rw g g thresh i j := by
    rw [rf_mask, hr2, gain_ls_self h w rh rw g i j hv hden]
    push_neg
    constructor
    · exact hth
    · norm_num
  refine ⟨?_, ?_, hr2⟩
  · rw [gain_final]
    rw [if_neg (by tauto), gain_ls_self h w rh rw g i j hv hden]
  · rw [offset_final]
    rw [if_pos hv, if_neg hflag, offset_ls_self h w rh rw g i j hv hden]

/-- A 3 × 3 band with every pixel equal to 2 (all pixels valid). -/
def constC5 : Grid := fun _ _ => 2

/-- C5 counterexample: with source = reference = the constant band `constC5` and a
3 × 3 kernel, every kernel pixel at the centre is valid, yet the gain_offset fit
returns gain 0 (the least-squares denominator vanishes on a constant window) and
offset 2 — not 1 ± ε and 0 ± ε. -/
theorem gain_offset_identity_const_fails :
    constC5 1 1 ≠ 0 ∧
    gain_ls 3 3 1 1 constC5 constC5 1 1 = 0 ∧
    offset_ls 3 3 1 1 constC5 constC5 1 1 = 2 ∧
    ¬ (|gain_ls 3 3 1 1 constC5 constC5 1 1 - 1| < 1 / 2 ∧
      |offset_ls 3 3 1 1 constC5 constC5 1 1 - 0| < 1 / 2) := by
  have hm : mask_sum 3 3 1 1 constC5 1 1 = 9 := by
    rw [mask_sum, boxSum_1_1]
    norm_num [pad, maskA, constC5]
  have hs : src_sum 3 3 1 1 constC5 1 1 = 18 := by
    rw [src_sum, boxSum_1_1]
    norm_num [pad, constC5]
  have hs2 : src2_sum 3 3 1 1 constC5 1 1 = 36 := by
    rw [src2_sum, boxSum_1_1]
    norm_num [pad, constC5]
  have hsr : src_ref_sum 3 3 1 1 constC5 constC5 1 1 = 36 := by
    rw [src_ref_sum]
    simp only [refZ_self]
    rw [boxSum_1_1]
    norm_num [pad, constC5]
  have hr : ref_sum 3 3 1 1 constC5 constC5 1 1 = 18 := by
    rw [ref_sum]
    simp only [refZ_self]
    rw [boxSum_1_1]
    norm_num [pad, constC5]
  have hgain : gain_ls 3 3 1 1 constC5 constC5 1 1 = 0 := by
    rw [gain_ls]
    rw [if_pos (by norm_num [constC5]), m_num, m_den, hm, hs, hs2, hsr, hr]
    norm_num
  have hoff : offset_ls 3 3 1 1 constC5 constC5 1 1 = 2 := by
    rw [offset_ls]
    rw [if_pos (by norm_num [constC5]), hgain, hm, hs, hr]
    norm_num
  refine ⟨by norm_num [constC5], hgain, hoff, ?_⟩
  rw [hgain, hoff]
  norm_num

/-- C5 amended-claim witness: a 1 × 3 strictly increasing band fitted against
itself with the 1 × 3 kernel at the centre pixel. -/
theorem gain_offset_identity_witness :
    (1 : ℚ) / 2 ≤ 1 ∧
    (gain_final 1 3 0 1 srcC2 srcC2 fillC3 (1 / 2) 0 1 = 1 ∧
      offset_final 1 3 0 1 srcC2 srcC2 fillC3 (1 / 2) 0 1 = 0 ∧
      r2A 1 3 0 1 srcC2 srcC2 0 1 = 1) := by
  have hden0 : m_den 1 3 0 1 srcC2 0 0 = 1 := by
    rw [m_den, mask_sum, src_sum, src2_sum, boxSum_0_1, boxSum_0_1, boxSum_0_1]
    norm_num [pad, maskA, srcC2]
  have hden1 : m_den 1 3 0 1 srcC2 0 1 = 6 := by
    rw [m_den, mask_sum, src_sum, src2_sum, boxSum_0_1, boxSum_0_1, boxSum_0_1]
    norm_num [pad, maskA, srcC2]
  have hden2 : m_den 1 3 0 1 srcC2 0 2 = 1 := by
    rw [m_den, mask_sum, src_sum, src2_sum, boxSum_0_1, boxSum_0_1, boxSum_0_1]
    norm_num [pad, maskA, srcC2]
  refine ⟨by norm_num, gain_offset_identity 1 3 0 1 srcC2 fillC3 (1 / 2) 0 1
    (by norm_num) (fun a b ha hb => ?_)⟩
  rw [Finset.mem_Icc] at ha hb
  have ha' : a = 0 := by omega
  subst ha'
  have hb' : b = 0 ∨ b = 1 ∨ b = 2 := by omega
  rcases hb' with hb' | hb' | hb' <;> subst hb'
  · exact ⟨by norm_num, by norm_num [srcC2], by rw [hden0]; norm_num⟩
  · exact ⟨by norm_num, by norm_num [srcC2], by rw [hden1]; norm_num⟩
  · exact ⟨by norm_num, by norm_num [srcC2], by rw [hden2]; norm_num⟩

/-! ### C4: the gain_blk_offset method -/

theorem boxSum_0_0 (h w : ℕ) (A : Grid) (i j : ℤ) :
    boxSum h w 0 0 A i j = pad h w A i j := by
  unfold boxSum
  rw [show (-(0 : ℕ) : ℤ) = 0 by norm_num, show ((0 : ℕ) : ℤ) = 0 by norm_num]
  rw [sum_Icc_zero_zero, sum_Icc_zero_zero]
  norm_num

/-- Insertion of a value into an ascending sorted list. -/
def insertSorted (x : ℚ) : List ℚ → List ℚ
  | [] => [x]
  | y :: ys => if x ≤ y then x :: y :: ys else y :: insertSorted x ys

/-- Ascending sort, modelling the sort underlying `np.percentile`. -/
def sortQ : List ℚ → List ℚ
  | [] => []
  | x :: xs => insertSorted x (sortQ xs)

/-- `np.percentile(v, 1)` with the default linear interpolation: with the data
sorted ascending and `pos = (n − 1)·1/100`, the result is
`s[⌊pos⌋] + (pos − ⌊pos⌋)·(s[⌊pos⌋+1] − s[⌊pos⌋])`. -/
def percentile1 (l : List ℚ) : ℚ :=
  let s := sortQ l
  let pos : ℚ := ((s.length : ℚ) - 1) / 100
  let k : ℕ := (Int.floor pos).toNat
  s.getD k 0 + (pos - (k : ℚ)) * (s.getD (k + 1) (s.getD k 0) - s.getD k 0)

/-- Row-major list of the values of `A` at pixels where the source band is valid:
`A[src_mask]` for an `h × w` band. -/
def grid_vals (h w : ℕ) (A src : Grid) : List ℚ :=
  (List.range h).flatMap (fun i => (List.range w).filterMap
    (fun j => if src (i : ℤ) (j : ℤ) ≠ 0 then some (A (i : ℤ) (j : ℤ)) else none))

/-- `HomonImBase._src_image_offset` (src/homonim/homonim.py:454-482): the
dark-object-subtraction offset model `[1, o]` with
`o = percentile(ref[mask], 1) − percentile(src[mask], 1) * 1`. -/
def src_image_offset (h w : ℕ) (ref src : Grid) : ℚ × ℚ :=
  (1, percentile1 (grid_vals h w ref src) - percentile1 (grid_vals h w src src) * 1)

/-- The in-place offset source: `src_array[src_mask] = 1 * src + offset`. -/
def src_norm (h w : ℕ) (ref src : Grid) : Grid :=
  fun i j =>
    if src i j ≠ 0 then
      (src_image_offset h w ref src).1 * src i j + (src_image_offset h w ref src).2
    else src i j

/-- `HomonimRefSpace._homogenise_array` (src/homonim/homonim.py:686-725) in the
same-grid case (source already on the proc grid, so the src↔ref reprojections are
identities) with `method='gain_only'` and `normalise=True` — the configuration the
spec calls `gain_blk_offset`: offset the source in place with the scalar model,
fit the per-pixel gain on the offset source, and output
`param[0]·norm[0]·src + param[0]·norm[1]`.  Returns the emitted parameter planes
and the corrected band. -/
def homogenise_gain_blk_offset (h w rh rw : ℕ) (ref src : Grid) : List Grid × Grid :=
  let nm := src_image_offset h w ref src
  let g := find_gains_cv h w rh rw ref (src_norm h w ref src)
  ([g], fun i j => g i j * nm.1 * src i j + g i j * nm.2)

/-- A 1 × 1 source band with value 2. -/
def srcC4 : Grid := fun _ _ => 2

/-- A 1 × 1 reference band with value 4. -/
def refC4 : Grid := fun _ _ => 4

/-- C4 counterexample: on a 1 × 1 block with source value 2 and reference value 4,
the emitted parameter array has a single plane (no constant offset plane is
emitted), and that plane holds 1 — the gain fitted on the offset source — whereas
the gain method applied to the raw source gives 2.  The claim's `[g, o_const]`
with `g` computed exactly as in the gain method does not hold. -/
theorem homogenise_gain_blk_offset_ne_claim :
    (homogenise_gain_blk_offset 1 1 0 0 refC4 srcC4).1.length = 1 ∧
    (homogenise_gain_blk_offset 1 1 0 0 refC4 srcC4).1.headI 0 0 = 1 ∧
    find_gains_cv 1 1 0 0 refC4 srcC4 0 0 = 2 ∧
    (homogenise_gain_blk_offset 1 1 0 0 refC4 srcC4).1.headI 0 0 ≠
      find_gains_cv 1 1 0 0 refC4 srcC4 0 0 := by
  have hvals_ref : grid_vals 1 1 refC4 srcC4 = [4] := by decide
  have hvals_src : grid_vals 1 1 srcC4 srcC4 = [2] := by decide
  have hp_ref : percentile1 [4] = 4 := by
    norm_num [percentile1, sortQ, insertSorted, List.getD]
  have hp_src : percentile1 [2] = 2 := by
    norm_num [percentile1, sortQ, insertSorted, List.getD]
  have hoff : src_image_offset 1 1 refC4 srcC4 = (1, 2) := by
    rw [src_image_offset, hvals_ref, hvals_src, hp_ref, hp_src]
    norm_num
  have hnorm : src_norm 1 1 refC4 srcC4 0 0 = 4 := by
    rw [src_norm]
    rw [if_pos (by norm_num [srcC4]), hoff]
    norm_num [srcC4]
  have hgain_norm : find_gains_cv 1 1 0 0 refC4 (src_norm 1 1 refC4 srcC4) 0 0 = 1 := by
    rw [find_gains_cv]
    rw [if_pos (by rw [hnorm]; norm_num), mask_sum, boxSum_0_0, boxSum_0_0]
    rw [show pad 1 1 (ratioA refC4 (src_norm 1 1 refC4 srcC4)) 0 0 =
        ratioA refC4 (src_norm 1 1 refC4 srcC4) 0 0 by rw [pad]; norm_num,
      show pad 1 1 (maskA (src_norm 1 1 refC4 srcC4)) 0 0 =
        maskA (src_norm 1 1 refC4 srcC4) 0 0 by rw [pad]; norm_num]
    rw [ratioA, maskA, if_pos (by rw [hnorm]; norm_num), if_pos (by rw [hnorm]; norm_num),
      hnorm]
    norm_num [refC4]
  have hgain_raw : find_gains_cv 1 1 0 0 refC4 srcC4 0 0 = 2 := by
    rw [find_gains_cv]
    rw [if_pos (by norm_num [srcC4]), mask_sum, boxSum_0_0, boxSum_0_0]
    norm_num [pad, ratioA, maskA, srcC4, refC4]
  refine ⟨rfl, ?_, hgain_raw, ?_⟩
  · show find_gains_cv 1 1 0 0 refC4 (src_norm 1 1 refC4 srcC4) 0 0 = 1
    exact hgain_norm
  · show find_gains_cv 1 1 0 0 refC4 (src_norm 1 1 refC4 srcC4) 0 0 ≠
      find_gains_cv 1 1 0 0 refC4 srcC4 0 0
    rw [hgain_norm, hgain_raw]
    norm_num

/-- C4 (amended): gain_blk_offset computes the scalar block offset
`o = percentile_1(ref[mask]) − percentile_1(src[mask])` (the gain factor inside
the offset formula is the constant 1, not the per-pixel gain), adds `o` to the
source at valid pixels, fits the per-pixel gain of the gain method on the offset
source, emits that single gain plane as the parameter array (no constant offset
plane), and corrects the block as `out(p) = g(p)·(src(p) + o)` at valid pixels —
the effective offset plane `g·o` varies per pixel. -/
theorem homogenise_gain_blk_offset_spec (h w rh rw : ℕ) (ref src : Grid) (i j : ℤ) :
    (homogenise_gain_blk_offset h w rh rw ref src).1 =
      [find_gains_cv h w rh rw ref (src_norm h w ref src)] ∧
    (src_image_offset h w ref src).2 =
      percentile1 (grid_vals h w ref src) - percentile1 (grid_vals h w src src) ∧
    (src i j ≠ 0 →
      (homogenise_gain_blk_offset h w rh rw ref src).2 i j =
        find_gains_cv h w rh rw ref (src_norm h w ref src) i j *
          (src i j + (src_image_offset h w ref src).2)) := by
  refine ⟨rfl, by rw [src_image_offset]; ring, fun hv => ?_⟩
  show find_gains_cv h w rh rw ref (src_norm h w ref src) i j *
      (src_image_offset h w ref src).1 * src i j +
    find_gains_cv h w rh rw ref (src_norm h w ref src) i j *
      (src_image_offset h w ref src).2 = _
  rw [src_image_offset]
  ring

/-- C4 amended-claim witness at the concrete 1 × 1 block. -/
theorem homogenise_gain_blk_offset_spec_witness :
    srcC4 0 0 ≠ 0 ∧
    ((homogenise_gain_blk_offset 1 1 0 0 refC4 srcC4).1 =
      [find_gains_cv 1 1 0 0 refC4 (src_norm 1 1 refC4 srcC4)] ∧
    (homogenise_gain_blk_offset 1 1 0 0 refC4 srcC4).2 0 0 =
      find_gains_cv 1 1 0 0 refC4 (src_norm 1 1 refC4 srcC4) 0 0 *
        (srcC4 0 0 + (src_image_offset 1 1 refC4 srcC4).2)) :=
  ⟨by norm_num [srcC4],
    (homogenise_gain_blk_offset_spec 1 1 0 0 refC4 srcC4 0 0).1,
    (homogenise_gain_blk_offset_spec 1 1 0 0 refC4 srcC4 0 0).2.2
      (by norm_num [srcC4])⟩

/-! ### C6: processing-CRS resolution -/

/-- `homonim.enums.ProcCrs`: the processing CRS choice `{auto, src, ref}`. -/
inductive ProcCrs
  | auto
  | src
  | ref
deriving DecidableEq

/-- `RasterPairReader._resolve_proc_crs` (src/homonim/raster_pair.py:179-209):
`src_pixel_smaller = np.prod(np.abs(src_im.res)) <= np.prod(np.abs(ref_im.res))`;
`auto` resolves to `ref` when the source pixel is smaller, else to `src`; an
already-resolved value is returned unchanged (the contradicting case only logs a
warning). -/
def resolve_proc_crs (srcResX srcResY refResX refResY : ℚ) (proc_crs : ProcCrs) :
    ProcCrs :=
  match proc_crs with
  | ProcCrs.auto =>
      if |srcResX * srcResY| ≤ |refResX * refResY| then ProcCrs.ref else ProcCrs.src
  | p => p

/-- C6: `auto` resolves to `ref` exactly when the source pixel area is at most the
reference pixel area, and to `src` otherwise; a caller-forced `src` or `ref` is
returned unchanged whatever the resolutions. -/
theorem resolve_proc_crs_spec (a b c d : ℚ) :
    (resolve_proc_crs a b c d ProcCrs.auto = ProcCrs.ref ↔ |a * b| ≤ |c * d|) ∧
    (resolve_proc_crs a b c d ProcCrs.auto = ProcCrs.src ↔ ¬ |a * b| ≤ |c * d|) ∧
    resolve_proc_crs a b c d ProcCrs.src = ProcCrs.src ∧
    resolve_proc_crs a b c d ProcCrs.ref = ProcCrs.ref := by
  refine ⟨?_, ?_, rfl, rfl⟩ <;>
    · rw [resolve_proc_crs]
      split_ifs with hle <;> simp [hle]

/-! ### C10: the from_profile key check -/

/-- A Python value appearing in the `from_profile` key-check expressions. -/
inductive PyVal
  | str (s : String)
  | bool (b : Bool)

/-- Python truthiness: a string is truthy when nonempty; a bool is itself. -/
def truthy : PyVal → Bool
  | PyVal.str s => !s.isEmpty
  | PyVal.bool b => b

/-- Python `and`: the right operand when the left is truthy, else the left. -/
def pyAnd (a b : PyVal) : PyVal := if truthy a then b else a

/-- The error raised by the `from_profile` key check. -/
inductive ProfileError
  | imageProfileError
deriving DecidableEq

/-- `RasterArray.from_profile` key checks (src/homonim/raster_array.py:136-145),
embedding the Python expressions
`not ('crs' and 'transform' and 'nodata' in profile)` and — when `array` is
`None` — `not ('width' and 'height' and 'count' and 'dtype' in profile)`, with
Python's truthiness semantics for `and` chains over string literals.  `profile`
is the list of keys present and `arrayIsNone` tells whether the array argument is
`None`. -/
def from_profile_check (arrayIsNone : Bool) (profile : List String) :
    Except ProfileError Unit :=
  if !(truthy (pyAnd (PyVal.str "crs") (pyAnd (PyVal.str "transform")
      (PyVal.bool (profile.contains "nodata"))))) then
    Except.error ProfileError.imageProfileError
  else if arrayIsNone &&
      !(truthy (pyAnd (PyVal.str "width") (pyAnd (PyVal.str "height")
        (pyAnd (PyVal.str "count") (PyVal.bool (profile.contains "dtype")))))) then
    Except.error ProfileError.imageProfileError
  else Except.ok ()

/-- C10: the key check raises `ImageProfileError` exactly when `'nodata'` is
missing, or the array is `None` and `'dtype'` is missing — the `'crs'`,
`'transform'`, `'width'`, `'height'` and `'count'` conjuncts are vacuously truthy
string literals.  In particular the concrete profile `["nodata", "dtype"]`,
missing all of crs/transform/width/height/count, passes the check with array
`None`. -/
theorem from_profile_check_spec (arrayIsNone : Bool) (profile : List String) :
    (from_profile_check arrayIsNone profile =
        Except.error ProfileError.imageProfileError ↔
      profile.contains "nodata" = false ∨
        (arrayIsNone = true ∧ profile.contains "dtype" = false)) ∧
    from_profile_check true ["nodata", "dtype"] = Except.ok () := by
  constructor
  · rw [from_profile_check]
    cases hn : profile.contains "nodata" <;> cases hd : profile.contains "dtype" <;>
      cases arrayIsNone <;> simp [truthy, pyAnd, String.isEmpty] <;> decide
  · rfl

/-! ### C7: source/reference pair validation -/

/-- Metadata of an open raster dataset needed by pair validation: world bounds
`(left, bottom, right, top)` and, per band in order, whether the band's
colorinterp is alpha. -/
structure ImageMeta where
  left : ℚ
  bottom : ℚ
  right : ℚ
  top : ℚ
  alphaBands : List Bool

/-- Modelled from the spec: `utils.covers_bounds` is not among the provided
sources (only its caller `_validate_image_pair` is).  Per the spec, the first
image's bounds must cover the second's. -/
def covers_bounds (im1 im2 : ImageMeta) : Prop :=
  im1.left ≤ im2.left ∧ im1.bottom ≤ im2.bottom ∧
    im2.right ≤ im1.right ∧ im2.top ≤ im1.top

instance (im1 im2 : ImageMeta) : Decidable (covers_bounds im1 im2) := by
  unfold covers_bounds; infer_instance

/-- Modelled from the spec: `utils.get_nonalpha_bands` is not among the provided
sources.  Per the spec, non-alpha bands are enumerated in order (1-based). -/
def get_nonalpha_bands (im : ImageMeta) : List ℕ :=
  ((List.range im.alphaBands.length).filter
    (fun b => im.alphaBands.getD b false = false)).map (fun b => b + 1)

/-- The error raised by pair validation. -/
inductive PairError
  | imageContentError
deriving DecidableEq

/-- `RasterPairReader._validate_image_pair` (src/homonim/raster_pair.py:148-177):
ImageContentError when the reference bounds do not cover the source, or when the
reference has fewer non-alpha bands than the source; a band-count excess and a
CRS mismatch only log warnings. -/
def validate_image_pair (src_im ref_im : ImageMeta) : Except PairError Unit :=
  if ¬ covers_bounds ref_im src_im then Except.error PairError.imageContentError
  else if (get_nonalpha_bands src_im).length > (get_nonalpha_bands ref_im).length then
    Except.error PairError.imageContentError
  else Except.ok ()

/-- The open sequence: `RasterPairReader.__init__` validates the pair in
`_init_image_pair` before `RasterFuse` creates any output dataset; on success
block reads use `ref_bands[band_i]` for `band_i < len(src_bands)`, i.e. the first
`|src_bands|` non-alpha reference bands. -/
def open_image_pair (src_im ref_im : ImageMeta) : Except PairError (List ℕ) :=
  (validate_image_pair src_im ref_im).map
    (fun _ => (get_nonalpha_bands ref_im).take (get_nonalpha_bands src_im).length)

/-- C7: opening fails with ContentError when the reference bounds do not cover the
source, and when the reference has fewer non-alpha bands than the source — in
both cases during validation, before any band list for reading is produced; with
covering bounds and at least as many reference bands, opening succeeds using the
first `|src_bands|` non-alpha reference bands. -/
theorem validate_image_pair_spec (src_im ref_im : ImageMeta) :
    (¬ covers_bounds ref_im src_im →
      open_image_pair src_im ref_im = Except.error PairError.imageContentError) ∧
    (covers_bounds ref_im src_im →
      (get_nonalpha_bands ref_im).length < (get_nonalpha_bands src_im).length →
      open_image_pair src_im ref_im = Except.error PairError.imageContentError) ∧
    (covers_bounds ref_im src_im →
      (get_nonalpha_bands src_im).length ≤ (get_nonalpha_bands ref_im).length →
      open_image_pair src_im ref_im =
        Except.ok ((get_nonalpha_bands ref_im).take
          (get_nonalpha_bands src_im).length)) := by
  refine ⟨fun hnc => ?_, fun hc hlt => ?_, fun hc hle => ?_⟩
  · rw [open_image_pair, validate_image_pair, if_pos hnc]
    rfl
  · rw [open_image_pair, validate_image_pair, if_neg (by tauto),
      if_pos (by omega)]
    rfl
  · rw [open_image_pair, validate_image_pair, if_neg (by tauto),
      if_neg (by omega)]
    rfl

/-- A 1-band source image on bounds (0, 0, 1, 1). -/
def srcImC7 : ImageMeta := ⟨0, 0, 1, 1, [false]⟩

/-- A 2-band reference image on bounds (0, 0, 2, 2). -/
def refImC7 : ImageMeta := ⟨0, 0, 2, 2, [false, false]⟩

/-- C7 witness: a covering 2-band reference over a 1-band source opens
successfully, reading the first reference band only. -/
theorem validate_image_pair_spec_witness :
    covers_bounds refImC7 srcImC7 ∧
    (get_nonalpha_bands srcImC7).length ≤ (get_nonalpha_bands refImC7).length ∧
    open_image_pair srcImC7 refImC7 =
      Except.ok ((get_nonalpha_bands refImC7).take
        (get_nonalpha_bands srcImC7).length) :=
  ⟨by norm_num [covers_bounds, srcImC7, refImC7], by decide,
    (validate_image_pair_spec srcImC7 refImC7).2.2
      (by norm_num [covers_bounds, srcImC7, refImC7]) (by decide)⟩

/-! ### C9: to_rio_dataset error kinds -/

/-- Metadata of an open dataset being written to: an opaque CRS id, band count
and shape. -/
structure DatasetMeta where
  crs : ℤ
  count : ℕ
  height : ℕ
  width : ℕ

/-- Metadata of the RasterArray being written: CRS id, band count, shape, and the
integer offset of its pixel (0,0) on the dataset grid (grid-aligned embedding:
array and dataset share resolution and integer-aligned transforms). -/
structure ArrayMeta where
  crs : ℤ
  count : ℕ
  height : ℕ
  width : ℕ
  row_off : ℤ
  col_off : ℤ

/-- A rasterio window: column/row offsets and width/height, possibly boundless. -/
structure Win where
  col_off : ℤ
  row_off : ℤ
  width : ℤ
  height : ℤ

/-- `RasterArray.bounded_window_slices` (src/homonim/raster_array.py:122-134):
the window cropped to the dataset extent. -/
def bounded_window (ds_h ds_w : ℕ) (win : Win) : Win :=
  let r0 := max win.row_off 0
  let c0 := max win.col_off 0
  let r1 := min (win.row_off + win.height) ds_h
  let c1 := min (win.col_off + win.width) ds_w
  ⟨c0, r0, c1 - c0, r1 - r0⟩

/-- Length of the Python slice `l[a:b]` of a sequence of length `n`, including
negative-index wrap-around. -/
def pySliceLen (n : ℕ) (a b : ℤ) : ℤ :=
  max 0 ((if b < 0 then max ((n : ℤ) + b) 0 else min b n) -
    (if a < 0 then max ((n : ℤ) + a) 0 else min a n))

/-- The error kinds raised by `to_rio_dataset`. -/
inductive WriteError
  | imageFormatError
  | valueError
deriving DecidableEq

/-- `RasterArray.to_rio_dataset` (src/homonim/raster_array.py:284-342) control
flow with an explicit window: `ImageFormatError` when the dataset CRS differs
from the array's; `ValueError` when a requested band index exceeds the dataset
band count, when more indexes are requested than the array has bands, or when the
array cropped to the bounds-cropped window (`slice_array` of the bounded window,
numpy slice semantics) has a zero-length dimension; otherwise the write proceeds. -/
def to_rio_dataset (ds : DatasetMeta) (ra : ArrayMeta) (indexes : List ℕ)
    (win : Win) : Except WriteError Unit :=
  if ds.crs ≠ ra.crs then Except.error WriteError.imageFormatError
  else if indexes.any (fun bi => ds.count < bi) then Except.error WriteError.valueError
  else if ra.count < indexes.length then Except.error WriteError.valueError
  else
    let bw := bounded_window ds.height ds.width win
    if pySliceLen ra.height (bw.row_off - ra.row_off)
        (bw.row_off + bw.height - ra.row_off) ≤ 0 ∨
      pySliceLen ra.width (bw.col_off - ra.col_off)
        (bw.col_off + bw.width - ra.col_off) ≤ 0 then
      Except.error WriteError.valueError
    else Except.ok ()

/-- A 3-band 4 × 4 dataset with CRS id 1. -/
def dsC9 : DatasetMeta := ⟨1, 3, 4, 4⟩

/-- A 3-band 4 × 4 array with the same CRS, aligned with the dataset origin. -/
def raC9 : ArrayMeta := ⟨1, 3, 4, 4, 0, 0⟩

/-- The full 4 × 4 window. -/
def winC9 : Win := ⟨0, 0, 4, 4⟩

/-- C9 counterexample: writing with band index 4 into the 3-band dataset (same
CRS) raises `ValueError`, not the `FormatError` the claim states for the
index-exceeds case. -/
theorem to_rio_dataset_index_error_kind :
    to_rio_dataset dsC9 raC9 [4] winC9 = Except.error WriteError.valueError ∧
    to_rio_dataset dsC9 raC9 [4] winC9 ≠ Except.error WriteError.imageFormatError := by
  constructor
  · rfl
  · intro hcontra
    exact absurd (Except.error.inj hcontra) (by decide)

/-- C9 (amended): `to_rio_dataset` fails with `ImageFormatError` when the dataset
CRS differs from the array CRS; it fails with `ValueError` (not FormatError) when
a requested band index exceeds the dataset band count and when the array cropped
to the bounds-cropped window has a zero-length dimension; otherwise (with index
count within the array band count) the write proceeds on the cropped window. -/
theorem to_rio_dataset_errors (ds : DatasetMeta) (ra : ArrayMeta) (indexes : List ℕ)
    (win : Win) :
    (ds.crs ≠ ra.crs →
      to_rio_dataset ds ra indexes win = Except.error WriteError.imageFormatError) ∧
    (ds.crs = ra.crs → indexes.any (fun bi => ds.count < bi) →
      to_rio_dataset ds ra indexes win = Except.error WriteError.valueError) ∧
    (ds.crs = ra.crs → indexes.all (fun bi => bi ≤ ds.count) →
      indexes.length ≤ ra.count →
      (pySliceLen ra.height ((bounded_window ds.height ds.width win).row_off - ra.row_off)
          ((bounded_window ds.height ds.width win).row_off +
            (bounded_window ds.height ds.width win).height - ra.row_off) ≤ 0 ∨
        pySliceLen ra.width ((bounded_window ds.height ds.width win).col_off - ra.col_off)
          ((bounded_window ds.height ds.width win).col_off +
            (bounded_window ds.height ds.width win).width - ra.col_off) ≤ 0 →
        to_rio_dataset ds ra indexes win = Except.error WriteError.valueError) ∧
      (¬ (pySliceLen ra.height ((bounded_window ds.height ds.width win).row_off - ra.row_off)
          ((bounded_window ds.height ds.width win).row_off +
            (bounded_window ds.height ds.width win).height - ra.row_off) ≤ 0 ∨
        pySliceLen ra.width ((bounded_window ds.height ds.width win).col_off - ra.col_off)
          ((bounded_window ds.height ds.width win).col_off +
            (bounded_window ds.height ds.width win).width - ra.col_off) ≤ 0) →
        to_rio_dataset ds ra indexes win = Except.ok ())) := by
  refine ⟨fun hcrs => ?_, fun hcrs hidx => ?_, fun hcrs hidx hlen => ?_⟩
  · rw [to_rio_dataset, if_pos hcrs]
  · rw [to_rio_dataset]
    rw [if_neg (by tauto), if_pos hidx]
  · have hany : ¬ (indexes.any (fun bi => ds.count < bi) = true) := by
      simp only [List.any_eq_true, decide_eq_true_eq, not_exists, not_and, not_lt]
      intro bi hbi
      have hle := List.all_eq_true.mp hidx bi hbi
      simp only [decide_eq_true_eq] at hle
      omega
    have hcnt : ¬ ra.count < indexes.length := by omega
    have hcrs' : ¬ ds.crs ≠ ra.crs := by tauto
    constructor
    · intro hz
      rw [to_rio_dataset]
      rw [if_neg hcrs', if_neg hany, if_neg hcnt]
      exact if_pos hz
    · intro hz
      rw [to_rio_dataset]
      rw [if_neg hcrs', if_neg hany, if_neg hcnt]
      exact if_neg hz

/-- C9 amended-claim witness: a CRS-mismatched write fails with
`ImageFormatError`, and a valid aligned write succeeds. -/
theorem to_rio_dataset_errors_witness :
    (2 : ℤ) ≠ raC9.crs ∧
    to_rio_dataset ⟨2, 3, 4, 4⟩ raC9 [1] winC9 = Except.error WriteError.imageFormatError ∧
    (dsC9.crs = raC9.crs ∧
      to_rio_dataset dsC9 raC9 [1, 2, 3] winC9 = Except.ok ()) :=
  ⟨by decide,
    (to_rio_dataset_errors ⟨2, 3, 4, 4⟩ raC9 [1] winC9).1 (by decide),
    ⟨by decide,
      ((to_rio_dataset_errors dsC9 raC9 [1, 2, 3] winC9).2.2 (by decide) (by decide)
        (by decide)).2 (by decide)⟩⟩

/-! ### C8: block-pair iteration invariants -/

/-- Number of blocks yielded along one dimension:
the length of the Python `range(off − o, off + len − o, b)`, i.e. `⌈len / b⌉`. -/
def n_blocks (len b : ℕ) : ℕ := (len + b - 1) / b

/-- Upper-left corner of the `i`-th overlapping block along one dimension:
`ul = off − overlap + i·block`. -/
def blk_ul (off : ℤ) (o b : ℕ) (i : ℕ) : ℤ := off - o + i * b

/-- `in_ul = np.fmax(ul, proc_win_ul)` along one dimension. -/
def blk_in_lo (off : ℤ) (o b : ℕ) (i : ℕ) : ℤ := max (blk_ul off o b i) off

/-- `in_br = np.fmin(ul + block + 2·overlap, proc_win_br)` along one dimension. -/
def blk_in_hi (off : ℤ) (len o b : ℕ) (i : ℕ) : ℤ :=
  min (blk_ul off o b i + b + 2 * o) (off + len)

/-- `out_ul = np.fmax(ul + overlap, proc_win_ul)` along one dimension. -/
def blk_out_lo (off : ℤ) (o b : ℕ) (i : ℕ) : ℤ := max (blk_ul off o b i + o) off

/-- `out_br = np.fmin(ul + block + 2·overlap − overlap, proc_win_br)` along one
dimension. -/
def blk_out_hi (off : ℤ) (len o b : ℕ) (i : ℕ) : ℤ :=
  min (blk_ul off o b i + b + 2 * o - o) (off + len)

/-- One yielded proc-CRS block: the band index, the overlapping input window and
the non-overlapping output window (row/col half-open pixel ranges), and the
`outer` boundary flag. -/
structure ProcBlock where
  band_i : ℕ
  in_row_lo : ℤ
  in_row_hi : ℤ
  in_col_lo : ℤ
  in_col_hi : ℤ
  out_row_lo : ℤ
  out_row_hi : ℤ
  out_col_lo : ℤ
  out_col_hi : ℤ
  outer : Bool
deriving DecidableEq, Inhabited

/-- The block produced for band `band` at block indices `(i, j)`. -/
def proc_block (rOff cOff : ℤ) (rLen cLen oR oC bR bC : ℕ) (band i j : ℕ) :
    ProcBlock :=
  { band_i := band
    in_row_lo := blk_in_lo rOff oR bR i
    in_row_hi := blk_in_hi rOff rLen oR bR i
    in_col_lo := blk_in_lo cOff oC bC j
    in_col_hi := blk_in_hi cOff cLen oC bC j
    out_row_lo := blk_out_lo rOff oR bR i
    out_row_hi := blk_out_hi rOff rLen oR bR i
    out_col_lo := blk_out_lo cOff oC bC j
    out_col_hi := blk_out_hi cOff cLen oC bC j
    outer := decide (blk_ul rOff oR bR i ≤ rOff ∨ blk_ul cOff oC bC j ≤ cOff ∨
      rOff + rLen ≤ blk_ul rOff oR bR i + bR + 2 * oR ∨
      cOff + cLen ≤ blk_ul cOff oC bC j + bC + 2 * oC) }

/-- `RasterPairReader.block_pairs` (src/homonim/raster_pair.py:416-463), proc-CRS
windows: outer loop over bands, inner loops over the upper-left block corners in
row-major order.  The proc window has offset `(rOff, cOff)` and shape
`(rLen, cLen)`; `(oR, oC)` is the overlap and `(bR, bC)` the auto block shape. -/
def block_pairs (rOff cOff : ℤ) (rLen cLen oR oC bR bC bands : ℕ) :
    List ProcBlock :=
  (List.range bands).flatMap (fun band =>
    (List.range (n_blocks rLen bR)).flatMap (fun i =>
      (List.range (n_blocks cLen bC)).map (fun j =>
        proc_block rOff cOff rLen cLen oR oC bR bC band i j)))

/-- C8 counterexample: for a 1 × 4 proc window with column overlap 1 and block
width 2, `block_pairs` yields two blocks whose input windows are columns [0, 3)
and [1, 4): they overlap in 2 columns — twice the configured halo of 1, not
"exactly the configured halo". -/
theorem block_pairs_in_overlap_ne_halo :
    (block_pairs 0 0 1 4 0 1 1 2 1).length = 2 ∧
    ((block_pairs 0 0 1 4 0 1 1 2 1).getD 0 default).in_col_lo = 0 ∧
    ((block_pairs 0 0 1 4 0 1 1 2 1).getD 0 default).in_col_hi = 3 ∧
    ((block_pairs 0 0 1 4 0 1 1 2 1).getD 1 default).in_col_lo = 1 ∧
    ((block_pairs 0 0 1 4 0 1 1 2 1).getD 1 default).in_col_hi = 4 ∧
    min ((block_pairs 0 0 1 4 0 1 1 2 1).getD 0 default).in_col_hi
        ((block_pairs 0 0 1 4 0 1 1 2 1).getD 1 default).in_col_hi -
      max ((block_pairs 0 0 1 4 0 1 1 2 1).getD 0 default).in_col_lo
        ((block_pairs 0 0 1 4 0 1 1 2 1).getD 1 default).in_col_lo = 2 ∧
    (2 : ℤ) ≠ (1 : ℕ) := by decide

theorem blk_out_lo_eq (off : ℤ) (o b : ℕ) (i : ℕ) :
    blk_out_lo off o b i = off + i * b := by
  rw [blk_out_lo, blk_ul, show off - (o : ℤ) + i * b + o = off + i * b by ring]
  exact max_eq_left (le_add_of_nonneg_right (by positivity))

theorem blk_out_hi_eq (off : ℤ) (len o b : ℕ) (i : ℕ) :
    blk_out_hi off len o b i = min (off + (i + 1 : ℕ) * b) (off + len) := by
  rw [blk_out_hi, blk_ul]
  congr 1
  push_cast
  ring

theorem out_blocks_tile_1d (off : ℤ) (len b o : ℕ) (hb : 0 < b) (x : ℤ)
    (hx1 : off ≤ x) (hx2 : x < off + len) :
    ∃! i : ℕ, i < n_blocks len b ∧
      blk_out_lo off o b i ≤ x ∧ x < blk_out_hi off len o b i := by
  have hlb : (0 : ℤ) ≤ x - off := by omega
  set n : ℕ := (x - off).toNat with hn
  have hxn : x = off + n := by omega
  have hnlen : n < len := by omega
  have hdm := Nat.div_add_mod n b
  have hmlt : n % b < b := Nat.mod_lt n hb
  refine ⟨n / b, ⟨?_, ?_, ?_⟩, ?_⟩
  · rw [n_blocks]
    have h3 : (n / b + 1) * b ≤ len + b - 1 := by
      have hexp : (n / b + 1) * b = b * (n / b) + b := by ring
      omega
    have h4 := (Nat.le_div_iff_mul_le hb).mpr h3
    omega
  · rw [blk_out_lo_eq]
    have h1 : ((n / b * b : ℕ) : ℤ) ≤ (n : ℤ) := by
      exact_mod_cast Nat.div_mul_le_self n b
    push_cast at h1 ⊢
    omega
  · rw [blk_out_hi_eq]
    refine lt_min ?_ (by omega)
    have h2 : (n : ℕ) < (n / b + 1) * b := by
      have hexp : (n / b + 1) * b = b * (n / b) + b := by ring
      omega
    have h2' : ((n : ℕ) : ℤ) < (((n / b + 1) * b : ℕ) : ℤ) := by exact_mod_cast h2
    push_cast at h2' ⊢
    omega
  · rintro i' ⟨-, hlo, hhi⟩
    rw [blk_out_lo_eq] at hlo
    rw [blk_out_hi_eq] at hhi
    have hhi' : x < off + ((i' + 1 : ℕ) : ℤ) * b := by
      have := lt_of_lt_of_le hhi (min_le_left _ _)
      exact_mod_cast this
    have hlo' : (i' * b : ℕ) ≤ n := by
      have : ((i' * b : ℕ) : ℤ) ≤ (n : ℤ) := by push_cast at hlo ⊢; omega
      exact_mod_cast this
    have hhi'' : n < (i' + 1) * b := by
      have : ((n : ℕ) : ℤ) < (((i' + 1) * b : ℕ) : ℤ) := by push_cast at hhi' ⊢; omega
      exact_mod_cast this
    exact (Nat.div_eq_of_lt_le hlo' hhi'').symm

theorem block_pairs_mem (rOff cOff : ℤ) (rLen cLen oR oC bR bC bands : ℕ)
    (blk : ProcBlock) :
    blk ∈ block_pairs rOff cOff rLen cLen oR oC bR bC bands ↔
      ∃ band i j, band < bands ∧ i < n_blocks rLen bR ∧ j < n_blocks cLen bC ∧
        blk = proc_block rOff cOff rLen cLen oR oC bR bC band i j := by
  simp only [block_pairs, List.mem_flatMap, List.mem_map, List.mem_range]
  constructor
  · rintro ⟨band, hband, i, hi, j, hj, heq⟩
    exact ⟨band, i, j, hband, hi, hj, heq.symm⟩
  · rintro ⟨band, i, j, hband, hi, hj, heq⟩
    exact ⟨band, hband, i, hi, j, hj, heq.symm⟩

theorem in_overlap_two_halo_1d (off : ℤ) (len o b : ℕ) (hob : o < b) (j : ℕ)
    (hcl : (j + 1) * b + o ≤ len) :
    min (blk_in_hi off len o b j) (blk_in_hi off len o b (j + 1)) -
      max (blk_in_lo off o b j) (blk_in_lo off o b (j + 1)) = 2 * o := by
  have hcl' : ((j : ℤ) + 1) * (b : ℤ) + (o : ℤ) ≤ (len : ℤ) := by exact_mod_cast hcl
  have hob' : (o : ℤ) < (b : ℤ) := by exact_mod_cast hob
  have hj0 : (0 : ℤ) ≤ (j : ℤ) * b := by positivity
  have hin_hi_j : blk_in_hi off len o b j = off + ((j : ℤ) + 1) * b + o := by
    rw [blk_in_hi, blk_ul, min_eq_left (by linarith)]
    ring
  have h5 : blk_in_hi off len o b j ≤ blk_in_hi off len o b (j + 1) := by
    rw [hin_hi_j, blk_in_hi, blk_ul]
    refine le_min ?_ ?_ <;> (push_cast; linarith)
  have hin_lo_j1 : blk_in_lo off o b (j + 1) = off + ((j : ℤ) + 1) * b - o := by
    rw [blk_in_lo, blk_ul, max_eq_left (by push_cast; linarith)]
    push_cast
    ring
  have h6 : blk_in_lo off o b j ≤ blk_in_lo off o b (j + 1) := by
    refine max_le_max ?_ le_rfl
    rw [blk_ul, blk_ul]
    push_cast
    linarith
  rw [min_eq_left h5, max_eq_right h6, hin_hi_j, hin_lo_j1]
  ring

/-- C8 (amended): within every band, (i) every pixel of the processing window is
covered by exactly one block's output window — the output windows are pairwise
disjoint and tile the processing window exactly; (ii) every output window lies
inside the processing window; (iii) consecutive (column-adjacent, as yielded)
input windows overlap by exactly **twice** the configured halo wherever the
input windows are not clipped by the processing-window boundary (not by the halo
itself, as claimed). -/
theorem block_pairs_spec (rOff cOff : ℤ) (rLen cLen oR oC bR bC bands : ℕ)
    (hoR : oR < bR) (hoC : oC < bC) :
    (∀ band : ℕ, ∀ r c : ℤ, band < bands →
      rOff ≤ r → r < rOff + rLen → cOff ≤ c → c < cOff + cLen →
      ∃! blk : ProcBlock,
        blk ∈ block_pairs rOff cOff rLen cLen oR oC bR bC bands ∧
        blk.band_i = band ∧
        blk.out_row_lo ≤ r ∧ r < blk.out_row_hi ∧
        blk.out_col_lo ≤ c ∧ c < blk.out_col_hi) ∧
    (∀ blk ∈ block_pairs rOff cOff rLen cLen oR oC bR bC bands,
      rOff ≤ blk.out_row_lo ∧ blk.out_row_hi ≤ rOff + rLen ∧
      cOff ≤ blk.out_col_lo ∧ blk.out_col_hi ≤ cOff + cLen) ∧
    (∀ band i j : ℕ, band < bands → i < n_blocks rLen bR →
      j + 1 < n_blocks cLen bC → (j + 1) * bC + oC ≤ cLen →
      proc_block rOff cOff rLen cLen oR oC bR bC band i j ∈
        block_pairs rOff cOff rLen cLen oR oC bR bC bands ∧
      proc_block rOff cOff rLen cLen oR oC bR bC band i (j + 1) ∈
        block_pairs rOff cOff rLen cLen oR oC bR bC bands ∧
      min (proc_block rOff cOff rLen cLen oR oC bR bC band i j).in_col_hi
          (proc_block rOff cOff rLen cLen oR oC bR bC band i (j + 1)).in_col_hi -
        max (proc_block rOff cOff rLen cLen oR oC bR bC band i j).in_col_lo
          (proc_block rOff cOff rLen cLen oR oC bR bC band i (j + 1)).in_col_lo =
        2 * oC) := by
  refine ⟨?_, ?_, ?_⟩
  · intro band r c hband hr1 hr2 hc1 hc2
    obtain ⟨i₀, ⟨hi₀n, hi₀lo, hi₀hi⟩, hi₀u⟩ :=
      out_blocks_tile_1d rOff rLen bR oR (by omega) r hr1 hr2
    obtain ⟨j₀, ⟨hj₀n, hj₀lo, hj₀hi⟩, hj₀u⟩ :=
      out_blocks_tile_1d cOff cLen bC oC (by omega) c hc1 hc2
    refine ⟨proc_block rOff cOff rLen cLen oR oC bR bC band i₀ j₀,
      ⟨(block_pairs_mem rOff cOff rLen cLen oR oC bR bC bands _).mpr
        ⟨band, i₀, j₀, hband, hi₀n, hj₀n, rfl⟩, rfl, hi₀lo, hi₀hi, hj₀lo, hj₀hi⟩, ?_⟩
    rintro blk' ⟨hmem, hband', hrl, hrh, hcl', hch⟩
    obtain ⟨band', i', j', hb', hi', hj', rfl⟩ :=
      (block_pairs_mem rOff cOff rLen cLen oR oC bR bC bands blk').mp hmem
    simp only [proc_block] at hband' hrl hrh hcl' hch
    have hieq : i' = i₀ := hi₀u i' ⟨hi', hrl, hrh⟩
    have hjeq : j' = j₀ := hj₀u j' ⟨hj', hcl', hch⟩
    rw [hband', hieq, hjeq]
  · intro blk hmem
    obtain ⟨band', i', j', hb', hi', hj', rfl⟩ :=
      (block_pairs_mem rOff cOff rLen cLen oR oC bR bC bands blk).mp hmem
    simp only [proc_block, blk_out_lo, blk_out_hi]
    refine ⟨le_max_right _ _, min_le_right _ _, le_max_right _ _, min_le_right _ _⟩
  · intro band i j hband hi hj1 hcl
    refine ⟨(block_pairs_mem rOff cOff rLen cLen oR oC bR bC bands _).mpr
        ⟨band, i, j, hband, hi, by omega, rfl⟩,
      (block_pairs_mem rOff cOff rLen cLen oR oC bR bC bands _).mpr
        ⟨band, i, j + 1, hband, hi, hj1, rfl⟩, ?_⟩
    simp only [proc_block]
    exact in_overlap_two_halo_1d cOff cLen oC bC hoC j hcl

/-- C8 amended-claim witness on the concrete 1 × 4 window with halo 1 and block
width 2: the two column-adjacent unclipped input windows overlap by exactly 2. -/
theorem block_pairs_spec_witness :
    (0 : ℕ) < 1 ∧ (1 : ℕ) < 2 ∧ (0 + 1) * 2 + 1 ≤ 4 ∧
    min (proc_block 0 0 1 4 0 1 1 2 0 0 0).in_col_hi
        (proc_block 0 0 1 4 0 1 1 2 0 0 1).in_col_hi -
      max (proc_block 0 0 1 4 0 1 1 2 0 0 0).in_col_lo
        (proc_block 0 0 1 4 0 1 1 2 0 0 1).in_col_lo = 2 * 1 :=
  ⟨by decide, by decide, by decide,
    ((block_pairs_spec 0 0 1 4 0 1 1 2 1 (by decide) (by decide)).2.2 0 0 0
      (by decide) (by decide) (by decide) (by decide)).2.2⟩
